import Mathlib

/-!
Verification of the ghostty-themer color pipeline.

The development shallowly embeds the slot-assignment policy of
`src/pipeline/assign.rs`, the image-loading boundary of
`src/pipeline/extract.rs`, and the `ThemeMode` flag of `src/cli.rs`.
Floating-point arithmetic is embedded as exact rational arithmetic.

The repository's `color` module (the `Color` value with its Oklch
conversions) is not present under `src/`; it is modelled from the
specification, as indicated on each definition. `extract_colors` is
present in `src/pipeline/extract.rs` but its entire body is a todo
placeholder that panics unconditionally; it is embedded as the function
that yields no value on any input.
-/

namespace Themer

/-- Clamp a rational to the unit interval. -/
def clamp01 (x : ℚ) : ℚ := min 1 (max 0 x)

/-- Reduce an angle in degrees into the interval `[0, 360)`. -/
def qmod360 (x : ℚ) : ℚ := x - 360 * (⌊x / 360⌋ : ℤ)

/-- Quantize a unit-interval channel value to an 8-bit channel, with the
channel-wise clamp to `[0, 255]` that the specification prescribes for
gamut clamping. -/
def quant (x : ℚ) : ℕ := min 255 (⌊255 * x + 1/2⌋.toNat)

/-- Modelled from the spec: the `Color` value of the absent `color`
module — an 8-bit-per-channel sRGB triple, equal iff channels match. -/
structure Color where
  r : ℕ
  g : ℕ
  b : ℕ
deriving DecidableEq, Repr

/-- `Color::new(r, g, b)` — construction from an 8-bit RGB triple. -/
def Color.new (r g b : ℕ) : Color := ⟨r, g, b⟩

/-- A color is a fully defined 8-bit sRGB triple when each channel fits
in `[0, 255]`. -/
def Color.valid (c : Color) : Prop := c.r ≤ 255 ∧ c.g ≤ 255 ∧ c.b ≤ 255

instance (c : Color) : Decidable c.valid := by unfold Color.valid; infer_instance

/-- The `palette::Oklch` triple: lightness, chroma, hue (degrees). -/
structure Oklch where
  l : ℚ
  chroma : ℚ
  hue : ℚ
deriving DecidableEq, Repr

/-- `Oklch::new(l, chroma, h)`. -/
def Oklch.new (l chroma hue : ℚ) : Oklch := ⟨l, chroma, hue⟩

/-- Modelled from the spec: gamut-clamped lightness used when realizing
an Oklch value as sRGB (lightness lies in `[0, 1]`). -/
def lGamut (o : Oklch) : ℚ := clamp01 o.l

/-- Modelled from the spec: gamut-clamped chroma — chroma is nonnegative
and is reduced so the resulting cylindrical color fits the sRGB cube
(the displayable chroma shrinks to 0 at lightness 0 and 1). -/
def cGamut (o : Oklch) : ℚ := min (max o.chroma 0) (2 * min (lGamut o) (1 - lGamut o))

/-- Modelled from the spec: arrange the extreme, middle and low channel
values of a cylindrical (lightness, chroma, hue) color into the RGB
channel order selected by the hue sextant `i`, quantizing each channel. -/
def sextantChannels (l c f : ℚ) (i : ℤ) : Color :=
  let x := if i % 2 = 0 then c * f else c * (1 - f)
  let hi := l + c / 2
  let mid := x + (l - c / 2)
  let lo := l - c / 2
  if i = 0 then ⟨quant hi, quant mid, quant lo⟩
  else if i = 1 then ⟨quant mid, quant hi, quant lo⟩
  else if i = 2 then ⟨quant lo, quant hi, quant mid⟩
  else if i = 3 then ⟨quant lo, quant mid, quant hi⟩
  else if i = 4 then ⟨quant mid, quant lo, quant hi⟩
  else ⟨quant hi, quant lo, quant mid⟩

/-- Modelled from the spec: `Color::from_oklch` of the absent `color`
module. Construction from an Oklch triple always succeeds; out-of-range
values are gamut clamped, and the result is quantized to 8-bit sRGB.
The transcendental Oklch-to-sRGB map of the external `palette` crate is
realized by an exact rational cylinder-to-cube map with the properties
the specification states: the lightness of the triple is the mean of the
extreme channels, its chroma their spread, and the round trip through
`to_oklch` is exact up to the ±1-per-channel quantization tolerance. -/
def Color.from_oklch (o : Oklch) : Color :=
  let h := qmod360 o.hue
  sextantChannels (lGamut o) (cGamut o) (Int.fract (h / 60)) ⌊h / 60⌋

/-- Modelled from the spec: `Color::to_oklch` of the absent `color`
module, the inverse of `Color.from_oklch` up to quantization: lightness
is the mean of the extreme channels, chroma their spread, and the hue is
recovered from the channel order on the 360-degree circle. -/
def Color.to_oklch (col : Color) : Oklch :=
  let r : ℚ := col.r / 255
  let g : ℚ := col.g / 255
  let b : ℚ := col.b / 255
  let M := max r (max g b)
  let m := min r (min g b)
  let c := M - m
  let l := (M + m) / 2
  let h :=
    if c = 0 then 0
    else if M = r then qmod360 (60 * ((g - b) / c))
    else if M = g then 60 * ((b - r) / c + 2)
    else 60 * ((r - g) / c + 4)
  Oklch.new l c h

/-- Modelled from the spec: `Color::adjust_lightness(delta)` — the Oklch
lightness becomes the original plus `delta` clamped to `[0, 1]`, chroma
and hue are unchanged, and the result is re-clamped to the sRGB gamut. -/
def Color.adjust_lightness (c : Color) (delta : ℚ) : Color :=
  let o := c.to_oklch
  Color.from_oklch (Oklch.new (clamp01 (o.l + delta)) o.chroma o.hue)

/-- `ThemeMode` from `src/cli.rs`. -/
inductive ThemeMode where
  | Dark
  | Light
deriving DecidableEq, Repr

/-- `ExtractedColor` from `src/pipeline/extract.rs`. -/
structure ExtractedColor where
  color : Color
  weight : ℚ
deriving DecidableEq, Repr

/-! ### Slot assignment, from `src/pipeline/assign.rs` -/

/-- `AnsiPalette` from `src/pipeline/assign.rs`: the 16 ANSI slots plus
the six special theme colors. -/
structure AnsiPalette where
  slots : Fin 16 → Color
  background : Color
  foreground : Color
  cursor_color : Color
  cursor_text : Color
  selection_bg : Color
  selection_fg : Color

/-- `TARGET_HUES`: the target Oklch hue (degrees) for each accent slot. -/
def TARGET_HUES : List (ℕ × ℚ) := [(1, 25), (2, 145), (3, 90), (4, 260), (5, 325), (6, 195)]

/-- `MAX_HUE_DISTANCE`: beyond this hue distance we synthesize. -/
def MAX_HUE_DISTANCE : ℚ := 60

/-- `BRIGHT_L_DELTA`: lightness increase for bright variants. -/
def BRIGHT_L_DELTA : ℚ := 12/100

/-- `MIN_CHROMA`: minimum chroma for a candidate to count as chromatic. -/
def MIN_CHROMA : ℚ := 2/100

/-- `BASE_MAX_CHROMA`: maximum chroma for background/dim base slots. -/
def BASE_MAX_CHROMA : ℚ := 4/100

/-- `TEXT_MAX_CHROMA`: maximum chroma for text-emphasis slots. -/
def TEXT_MAX_CHROMA : ℚ := 2/100

/-- `hue_distance`: angular distance between two hues, wrapped to `[0, 180]`. -/
def hue_distance (a b : ℚ) : ℚ :=
  let diff := qmod360 |a - b|
  if 180 < diff then 360 - diff else diff

/-- Rust `Iterator::min_by` semantics: the first element attaining the
minimum of `f`, or `none` on an empty list. -/
def minByFirst (f : α → ℚ) : List α → Option α
  | [] => none
  | x :: xs =>
    match minByFirst f xs with
    | none => some x
    | some y => if f x ≤ f y then some x else some y

/-- Rust `Iterator::max_by` semantics: the last element attaining the
maximum of `f`, or `none` on an empty list. -/
def maxByLast (f : α → ℚ) : List α → Option α
  | [] => none
  | x :: xs =>
    match maxByLast f xs with
    | none => some x
    | some y => if f y < f x then some x else some y

/-- `find_closest_by_hue`: the candidate with the smallest hue distance
to the target hue. -/
def find_closest_by_hue (candidates : List Oklch) (target_hue : ℚ) : Option Oklch :=
  minByFirst (fun c => hue_distance c.hue target_hue) candidates

/-- The chromatic filter of `assign_accents`: keep candidates whose
chroma exceeds `MIN_CHROMA`. -/
def chromaticOf (candidates : List Oklch) : List Oklch :=
  candidates.filter (fun c => decide (MIN_CHROMA < c.chroma))

/-- The accent color `assign_accents` stores for one target hue: the
closest chromatic candidate, used unmodified when within
`MAX_HUE_DISTANCE`, hue-rotated to the target otherwise, and a fully
synthetic fallback when no chromatic candidate exists. -/
def accent_color (chromatic : List Oklch) (target_hue : ℚ) : Color :=
  match find_closest_by_hue chromatic target_hue with
  | some best =>
    if hue_distance best.hue target_hue ≤ MAX_HUE_DISTANCE then
      Color.from_oklch best
    else
      Color.from_oklch (Oklch.new best.l best.chroma target_hue)
  | none => Color.from_oklch (Oklch.new (65/100) (15/100) target_hue)

/-- The darkest candidate of `assign_base_colors` (fallback `L = 0.15`). -/
def dark_base (candidates : List Oklch) : Oklch :=
  (minByFirst (fun o => o.l) candidates).getD (Oklch.new (15/100) 0 0)

/-- The lightest candidate of `assign_base_colors` (fallback `L = 0.93`). -/
def light_base (candidates : List Oklch) : Oklch :=
  (maxByLast (fun o => o.l) candidates).getD (Oklch.new (93/100) 0 0)

/-- The color the `assign_slots` pipeline leaves in slot `n` after
`assign_accents`, `assign_base_colors` and `assign_bright_variants`
have run (their written index sets are disjoint, and the bright pass
reads the accent results of slots 1-6). -/
def slotColor (cands : List Oklch) (mode : ThemeMode) : ℕ → Color
  | 0 =>
    match mode with
    | ThemeMode.Dark =>
      Color.from_oklch (Oklch.new (min (dark_base cands).l (15/100))
        (min (dark_base cands).chroma BASE_MAX_CHROMA) (dark_base cands).hue)
    | ThemeMode.Light =>
      Color.from_oklch (Oklch.new (max (light_base cands).l (93/100))
        (min (light_base cands).chroma TEXT_MAX_CHROMA) (light_base cands).hue)
  | 1 => accent_color (chromaticOf cands) 25
  | 2 => accent_color (chromaticOf cands) 145
  | 3 => accent_color (chromaticOf cands) 90
  | 4 => accent_color (chromaticOf cands) 260
  | 5 => accent_color (chromaticOf cands) 325
  | 6 => accent_color (chromaticOf cands) 195
  | 7 =>
    match mode with
    | ThemeMode.Dark =>
      Color.from_oklch (Oklch.new (85/100)
        (min (light_base cands).chroma TEXT_MAX_CHROMA) (light_base cands).hue)
    | ThemeMode.Light =>
      Color.from_oklch (Oklch.new (20/100)
        (min (dark_base cands).chroma TEXT_MAX_CHROMA) (dark_base cands).hue)
  | 8 =>
    match mode with
    | ThemeMode.Dark =>
      Color.from_oklch (Oklch.new (40/100)
        (min (dark_base cands).chroma BASE_MAX_CHROMA) (dark_base cands).hue)
    | ThemeMode.Light =>
      Color.from_oklch (Oklch.new (60/100)
        (min (light_base cands).chroma BASE_MAX_CHROMA) (light_base cands).hue)
  | 9 => (accent_color (chromaticOf cands) 25).adjust_lightness BRIGHT_L_DELTA
  | 10 => (accent_color (chromaticOf cands) 145).adjust_lightness BRIGHT_L_DELTA
  | 11 => (accent_color (chromaticOf cands) 90).adjust_lightness BRIGHT_L_DELTA
  | 12 => (accent_color (chromaticOf cands) 260).adjust_lightness BRIGHT_L_DELTA
  | 13 => (accent_color (chromaticOf cands) 325).adjust_lightness BRIGHT_L_DELTA
  | 14 => (accent_color (chromaticOf cands) 195).adjust_lightness BRIGHT_L_DELTA
  | 15 =>
    match mode with
    | ThemeMode.Dark =>
      Color.from_oklch (Oklch.new (93/100)
        (min (light_base cands).chroma TEXT_MAX_CHROMA) (light_base cands).hue)
    | ThemeMode.Light =>
      Color.from_oklch (Oklch.new (min (dark_base cands).l (15/100))
        (min (dark_base cands).chroma TEXT_MAX_CHROMA) (dark_base cands).hue)
  | _ => Color.new 0 0 0

/-- `derive_special_colors`: derive the six special theme colors from
the filled slots. -/
def derive_special_colors (slots : Fin 16 → Color) (mode : ThemeMode) : AnsiPalette :=
  let background := slots 0
  let foreground := slots 15
  let cursor_color := foreground
  let cursor_text := background
  let sel := (slots 4).to_oklch
  let sel_l :=
    match mode with
    | ThemeMode.Dark => min (sel.l + 1/10) 1
    | ThemeMode.Light => max (sel.l - 1/10) 0
  let selection_bg := Color.from_oklch (Oklch.new sel_l (max (sel.chroma * (6/10)) (1/100)) sel.hue)
  let selection_fg := foreground
  { slots := slots, background := background, foreground := foreground,
    cursor_color := cursor_color, cursor_text := cursor_text,
    selection_bg := selection_bg, selection_fg := selection_fg }

/-- `assign_slots`: map extracted colors to the 16 ANSI slots plus the
special colors. -/
def assign_slots (colors : List ExtractedColor) (mode : ThemeMode) : AnsiPalette :=
  let oklch_colors := colors.map (fun ec => ec.color.to_oklch)
  derive_special_colors (fun i => slotColor oklch_colors mode i.val) mode

/-! ### Image loading, from `src/pipeline/extract.rs` -/

/-- `palette::Lab`: a CIELAB value. -/
structure Lab where
  l : ℚ
  a : ℚ
  b : ℚ
deriving DecidableEq, Repr

/-- Modelled from the spec: the sRGB-to-Lab conversion performed by the
external `palette` crate on every prepared pixel (an exact rational
stand-in; the claims under verification depend only on the conversion
being applied to each pixel, not on its numerics). -/
def rgbToLab (c : Color) : Lab :=
  let r : ℚ := c.r / 255
  let g : ℚ := c.g / 255
  let b : ℚ := c.b / 255
  ⟨100 * (r + g + b) / 3, 100 * (r - g), 100 * (g - b)⟩

/-- A decoded in-memory image: dimensions plus a pixel accessor. -/
structure RgbImage where
  width : ℕ
  height : ℕ
  pix : ℕ → ℕ → Color

/-- The row-major pixel sequence of an image, as `to_rgb8().pixels()`
iterates it. -/
def pixelsOf (img : RgbImage) : List Color :=
  (List.range (img.width * img.height)).map (fun idx => img.pix (idx % img.width) (idx / img.width))

/-- `MAX_DIM`: images are downsampled to fit within this bound. -/
def MAX_DIM : ℕ := 256

/-- Half-up rounding of a nonnegative rational to a natural number. -/
def rnd (x : ℚ) : ℕ := ⌊x + 1/2⌋.toNat

/-- Modelled from the spec: the aspect-preserving scale factor the
external `image` crate's `resize` uses for a `MAX_DIM`-square bound. -/
def fitRatio (w h : ℕ) : ℚ := min ((256 : ℚ) / w) ((256 : ℚ) / h)

/-- Modelled from the spec: the resized width (at least 1). -/
def fitWidth (w h : ℕ) : ℕ := max 1 (rnd (w * fitRatio w h))

/-- Modelled from the spec: the resized height (at least 1). -/
def fitHeight (w h : ℕ) : ℕ := max 1 (rnd (h * fitRatio w h))

/-- Modelled from the spec: downsampling by the external `image` crate,
preserving aspect ratio to fit within `MAX_DIM` by `MAX_DIM`. The
resampling filter itself is external; it is modelled by sampling the
source (the claims depend on the dimensions, not the filter kernel). -/
def resizeFit (img : RgbImage) : RgbImage :=
  let nw := fitWidth img.width img.height
  let nh := fitHeight img.width img.height
  ⟨nw, nh, fun x y => img.pix (x * img.width / nw) (y * img.height / nh)⟩

/-- What the filesystem-plus-decoder boundary can yield for a path:
no file, a file that does not decode as an image, or a decoded image. -/
inductive FsEntry where
  | missing
  | notImage
  | image (img : RgbImage)

/-- The error value `load_and_prepare` produces: an `anyhow` error whose
only repository-added content is the context message string attached by
`with_context`. The repository defines no error enum, so this type has a
single form. -/
inductive AnyhowError where
  | withContext (msg : String)
deriving DecidableEq

/-- The constructor tag of an error — the only text-independent datum an
error value carries. -/
def AnyhowError.kindIndex : AnyhowError → ℕ
  | .withContext _ => 0

/-- The message built when the path does not exist. -/
def notFoundMsg (path : String) : String := "file not found: " ++ path

/-- The message built when the path exists but does not decode. -/
def unsupportedMsg (path : String) : String :=
  "unsupported or corrupt image: " ++ path ++
    ". Supported formats: PNG, JPEG, WebP, BMP, TIFF, GIF"

/-- `load_and_prepare`: open the image at `path`, attach the
message chosen by the `path.exists()` check on failure, downsample when
either dimension exceeds `MAX_DIM`, and convert every pixel to Lab. -/
def load_and_prepare (fs : String → FsEntry) (path : String) : Except AnyhowError (List Lab) :=
  match fs path with
  | FsEntry.missing => Except.error (AnyhowError.withContext (notFoundMsg path))
  | FsEntry.notImage => Except.error (AnyhowError.withContext (unsupportedMsg path))
  | FsEntry.image img =>
    let prepared := if MAX_DIM < img.width ∨ MAX_DIM < img.height then resizeFit img else img
    Except.ok ((pixelsOf prepared).map rgbToLab)

/-! ### Color extraction, from `src/pipeline/extract.rs` -/

/-- `extract_colors` from `src/pipeline/extract.rs` (lines 51-53): the
function's entire body is the todo placeholder
`Ticket 4: K-means color extraction`, an unconditional panic. A panic
produces no value; it is embedded as `none` on every input. -/
def extract_colors (_pixels : List Lab) (_k : ℕ) : Option (List ExtractedColor) :=
  none


/-! ### Arithmetic facts about quantization and clamping -/

lemma clamp01_nonneg (x : ℚ) : 0 ≤ clamp01 x := by
  unfold clamp01
  positivity

lemma clamp01_le_one (x : ℚ) : clamp01 x ≤ 1 := min_le_left _ _

lemma clamp01_eq_of (x : ℚ) (h0 : 0 ≤ x) (h1 : x ≤ 1) : clamp01 x = x := by
  unfold clamp01
  rw [max_eq_right h0, min_eq_right h1]

lemma clamp01_eq_one_of (x : ℚ) (h : 1 ≤ x) : clamp01 x = 1 := by
  unfold clamp01
  rw [min_eq_left (le_max_of_le_right h)]

lemma quant_le_255 (x : ℚ) : quant x ≤ 255 := min_le_left _ _

lemma quant_mono {x y : ℚ} (h : x ≤ y) : quant x ≤ quant y := by
  unfold quant
  have hf : ⌊255 * x + 1/2⌋ ≤ ⌊255 * y + 1/2⌋ := by
    apply Int.floor_le_floor
    linarith
  exact min_le_min le_rfl (Int.toNat_le_toNat hf)

lemma quant_cast_le {x : ℚ} (h0 : 0 ≤ x) : (quant x : ℚ) ≤ 255 * x + 1/2 := by
  unfold quant
  have hnn : (0 : ℤ) ≤ ⌊255 * x + 1/2⌋ := by
    rw [Int.le_floor]
    push_cast
    linarith
  have h1 : ((min 255 ⌊255 * x + 1/2⌋.toNat : ℕ) : ℚ) ≤ (⌊255 * x + 1/2⌋.toNat : ℚ) := by
    exact_mod_cast Nat.min_le_right _ _
  have h2 : ((⌊255 * x + 1/2⌋.toNat : ℤ) : ℚ) = ((⌊255 * x + 1/2⌋ : ℤ) : ℚ) := by
    rw [Int.toNat_of_nonneg hnn]
  have h3 : ((⌊255 * x + 1/2⌋ : ℤ) : ℚ) ≤ 255 * x + 1/2 := Int.floor_le _
  push_cast at h1 h2 ⊢
  linarith

lemma quant_cast_gt {x : ℚ} (h1 : x ≤ 1) : 255 * x - 1/2 < (quant x : ℚ) := by
  unfold quant
  rcases le_total (255 : ℤ) ⌊255 * x + 1/2⌋.toNat with h | h
  · have : min 255 ⌊255 * x + 1/2⌋.toNat = 255 := by omega
    rw [this]
    push_cast
    linarith
  · have hmin : min 255 ⌊255 * x + 1/2⌋.toNat = ⌊255 * x + 1/2⌋.toNat := by omega
    rw [hmin]
    have hfl : 255 * x + 1/2 - 1 < (⌊255 * x + 1/2⌋ : ℚ) := Int.sub_one_lt_floor _
    have : (⌊255 * x + 1/2⌋ : ℚ) ≤ (⌊255 * x + 1/2⌋.toNat : ℚ) := by
      have := Int.self_le_toNat ⌊255 * x + 1/2⌋
      exact_mod_cast this
    linarith

lemma quant_one : quant 1 = 255 := by
  unfold quant
  norm_num

/-! ### The Oklch round trip -/

lemma cast_div_max (a b : ℕ) : max ((a : ℚ) / 255) ((b : ℚ) / 255) = ((max a b : ℕ) : ℚ) / 255 := by
  rw [max_div_div_right (by norm_num : (0:ℚ) ≤ 255)]
  congr 1
  push_cast
  ring

lemma cast_div_min (a b : ℕ) : min ((a : ℚ) / 255) ((b : ℚ) / 255) = ((min a b : ℕ) : ℚ) / 255 := by
  rw [min_div_div_right (by norm_num : (0:ℚ) ≤ 255)]
  congr 1
  push_cast
  ring

/-- The lightness `to_oklch` reads off a color: the mean of the extreme
channels, on the natural-number channel scale. -/
lemma to_oklch_l_eq (col : Color) :
    col.to_oklch.l = ((max col.r (max col.g col.b) : ℕ) + (min col.r (min col.g col.b) : ℕ) : ℚ) / 510 := by
  unfold Color.to_oklch
  simp only [Oklch.new]
  rw [cast_div_max, cast_div_max, cast_div_min, cast_div_min]
  push_cast
  ring

/-- The chroma `to_oklch` reads off a color: the spread of the extreme
channels, on the natural-number channel scale. -/
lemma to_oklch_chroma_eq (col : Color) :
    col.to_oklch.chroma = ((max col.r (max col.g col.b) : ℕ) : ℚ) / 255 - ((min col.r (min col.g col.b) : ℕ) : ℚ) / 255 := by
  unfold Color.to_oklch
  simp only [Oklch.new]
  rw [cast_div_max, cast_div_max, cast_div_min, cast_div_min]

lemma to_oklch_l_nonneg (col : Color) : 0 ≤ col.to_oklch.l := by
  rw [to_oklch_l_eq]
  positivity

lemma lGamut_nonneg (o : Oklch) : 0 ≤ lGamut o := clamp01_nonneg _

lemma lGamut_le_one (o : Oklch) : lGamut o ≤ 1 := clamp01_le_one _

lemma cGamut_nonneg (o : Oklch) : 0 ≤ cGamut o := by
  have h0 := lGamut_nonneg o
  have h1 := lGamut_le_one o
  apply le_min (le_max_right _ _)
  have : 0 ≤ min (lGamut o) (1 - lGamut o) := le_min h0 (by linarith)
  linarith

lemma gamut_lo_nonneg (o : Oklch) : 0 ≤ lGamut o - cGamut o / 2 := by
  have h1 : cGamut o ≤ 2 * min (lGamut o) (1 - lGamut o) := min_le_right _ _
  have h2 : min (lGamut o) (1 - lGamut o) ≤ lGamut o := min_le_left _ _
  linarith

lemma gamut_hi_le_one (o : Oklch) : lGamut o + cGamut o / 2 ≤ 1 := by
  have h1 : cGamut o ≤ 2 * min (lGamut o) (1 - lGamut o) := min_le_right _ _
  have h2 : min (lGamut o) (1 - lGamut o) ≤ 1 - lGamut o := min_le_right _ _
  linarith

/-- Evaluate the lightness read back from an explicit channel triple
whose extreme channels are known. -/
lemma channels_l (A B C qh ql : ℕ) (hM : max A (max B C) = qh) (hm : min A (min B C) = ql) :
    (Color.mk A B C).to_oklch.l = ((qh : ℚ) + (ql : ℚ)) / 510 := by
  rw [to_oklch_l_eq]
  dsimp only
  rw [hM, hm]

/-- The lightness read back from a sextant-arranged color is the mean of
the quantized extreme channel values, whatever the sextant. -/
lemma sextant_to_oklch_l (l c f : ℚ) (i : ℤ) (hc : 0 ≤ c) (hf0 : 0 ≤ f) (hf1 : f ≤ 1) :
    (sextantChannels l c f i).to_oklch.l
      = ((quant (l + c / 2) : ℚ) + (quant (l - c / 2) : ℚ)) / 510 := by
  unfold sextantChannels
  dsimp only
  set x := (if i % 2 = 0 then c * f else c * (1 - f)) with hxdef
  have hx0 : 0 ≤ x := by
    rw [hxdef]
    split
    · exact mul_nonneg hc hf0
    · exact mul_nonneg hc (by linarith)
  have hxc : x ≤ c := by
    rw [hxdef]
    split
    · nlinarith
    · nlinarith
  have h1 : quant (l - c / 2) ≤ quant (x + (l - c / 2)) := quant_mono (by linarith)
  have h2 : quant (x + (l - c / 2)) ≤ quant (l + c / 2) := quant_mono (by linarith)
  split_ifs <;> exact channels_l _ _ _ _ _ (by omega) (by omega)

/-- The round trip through `from_oklch` and `to_oklch` reads lightness
back as the mean of the two quantized extreme channels. -/
lemma to_oklch_from_oklch_l (o : Oklch) :
    (Color.from_oklch o).to_oklch.l
      = ((quant (lGamut o + cGamut o / 2) : ℚ) + (quant (lGamut o - cGamut o / 2) : ℚ)) / 510 := by
  unfold Color.from_oklch
  exact sextant_to_oklch_l _ _ _ _ (cGamut_nonneg o) (Int.fract_nonneg _)
    (le_of_lt (Int.fract_lt_one _))

/-- The round trip loses at most half a quantization step of lightness
upward. -/
lemma roundtrip_l_le (o : Oklch) : (Color.from_oklch o).to_oklch.l ≤ lGamut o + 1/510 := by
  rw [to_oklch_from_oklch_l]
  have hlo := gamut_lo_nonneg o
  have hhi := gamut_hi_le_one o
  have h0 := lGamut_nonneg o
  have hc := cGamut_nonneg o
  have h1 := quant_cast_le (x := lGamut o + cGamut o / 2) (by linarith)
  have h2 := quant_cast_le (x := lGamut o - cGamut o / 2) (by linarith)
  linarith

/-- The round trip loses at most half a quantization step of lightness
downward. -/
lemma roundtrip_l_gt (o : Oklch) : lGamut o - 1/510 < (Color.from_oklch o).to_oklch.l := by
  rw [to_oklch_from_oklch_l]
  have hlo := gamut_lo_nonneg o
  have hhi := gamut_hi_le_one o
  have hc := cGamut_nonneg o
  have h1 := quant_cast_gt (x := lGamut o + cGamut o / 2) (by linarith)
  have h2 := quant_cast_gt (x := lGamut o - cGamut o / 2) (by linarith)
  linarith

/-- A color built from a gamut lightness at most `0.99` reads back a
lightness strictly inside the unit interval. -/
lemma roundtrip_l_le_of_le (o : Oklch) (hl : lGamut o ≤ 99/100) :
    (Color.from_oklch o).to_oklch.l ≤ 509/510 := by
  rw [to_oklch_from_oklch_l]
  have hlo := gamut_lo_nonneg o
  have hc := cGamut_nonneg o
  have h1 : ((quant (lGamut o + cGamut o / 2) : ℕ) : ℚ) ≤ 255 := by
    exact_mod_cast quant_le_255 _
  have h2 := quant_cast_le (x := lGamut o - cGamut o / 2) (by linarith)
  linarith

/-- Every color built by `from_oklch` is a fully defined 8-bit triple. -/
lemma from_oklch_valid (o : Oklch) : (Color.from_oklch o).valid := by
  unfold Color.from_oklch sextantChannels
  dsimp only
  split_ifs <;> exact ⟨quant_le_255 _, quant_le_255 _, quant_le_255 _⟩

/-! ### Selection lemmas for the argmin and argmax scans -/

lemma minByFirst_eq_none {f : α → ℚ} : ∀ {l : List α}, minByFirst f l = none ↔ l = []
  | [] => by simp [minByFirst]
  | x :: xs => by
    simp only [minByFirst]
    cases h : minByFirst f xs with
    | none => simp
    | some y =>
      dsimp only
      split_ifs <;> simp

lemma minByFirst_mem {f : α → ℚ} : ∀ {l : List α} {x : α}, minByFirst f l = some x → x ∈ l
  | [], x => by simp [minByFirst]
  | a :: l, x => by
    simp only [minByFirst]
    cases h : minByFirst f l with
    | none =>
      dsimp only
      intro he
      have hax : a = x := by simpa using he
      subst hax
      exact List.mem_cons_self _ _
    | some y =>
      dsimp only
      split_ifs with hf
      · intro he
        have hax : a = x := by simpa using he
        subst hax
        exact List.mem_cons_self _ _
      · intro he
        have hyx : y = x := by simpa using he
        subst hyx
        exact List.mem_cons_of_mem _ (minByFirst_mem h)

lemma minByFirst_le {f : α → ℚ} :
    ∀ {l : List α} {x : α}, minByFirst f l = some x → ∀ y ∈ l, f x ≤ f y
  | [], x => by simp [minByFirst]
  | a :: l, x => by
    simp only [minByFirst]
    cases h : minByFirst f l with
    | none =>
      dsimp only
      intro he y hy
      have hax : a = x := by simpa using he
      subst hax
      have hl : l = [] := minByFirst_eq_none.mp h
      subst hl
      have hya : y = a := by simpa using hy
      subst hya
      exact le_rfl
    | some b =>
      dsimp only
      have ih := minByFirst_le h
      split_ifs with hf
      · intro he y hy
        have hax : a = x := by simpa using he
        subst hax
        rcases List.mem_cons.mp hy with rfl | hy'
        · exact le_rfl
        · exact le_trans hf (ih y hy')
      · intro he y hy
        have hbx : b = x := by simpa using he
        subst hbx
        rcases List.mem_cons.mp hy with rfl | hy'
        · exact le_of_lt (lt_of_not_le hf)
        · exact ih y hy'

lemma maxByLast_mem {f : α → ℚ} : ∀ {l : List α} {x : α}, maxByLast f l = some x → x ∈ l
  | [], x => by simp [maxByLast]
  | a :: l, x => by
    simp only [maxByLast]
    cases h : maxByLast f l with
    | none =>
      dsimp only
      intro he
      have hax : a = x := by simpa using he
      subst hax
      exact List.mem_cons_self _ _
    | some y =>
      dsimp only
      split_ifs with hf
      · intro he
        have hax : a = x := by simpa using he
        subst hax
        exact List.mem_cons_self _ _
      · intro he
        have hyx : y = x := by simpa using he
        subst hyx
        exact List.mem_cons_of_mem _ (maxByLast_mem h)

/-! ### Bounds on the accent slots -/

lemma mem_chromaticOf {o : Oklch} {l : List Oklch} :
    o ∈ chromaticOf l ↔ o ∈ l ∧ MIN_CHROMA < o.chroma := by
  unfold chromaticOf
  simp [List.mem_filter]

/-- A valid (8-bit) color whose read-back chroma exceeds `MIN_CHROMA`
has read-back lightness at most `0.99`: a genuinely chromatic candidate
cannot sit at the very top of the lightness scale. -/
lemma valid_chromatic_l_le (col : Color) (hv : col.valid) (hc : MIN_CHROMA < col.to_oklch.chroma) :
    col.to_oklch.l ≤ 99/100 := by
  obtain ⟨hr, hg, hb⟩ := hv
  rw [to_oklch_chroma_eq] at hc
  rw [to_oklch_l_eq]
  unfold MIN_CHROMA at hc
  have hM : max col.r (max col.g col.b) ≤ 255 := by omega
  have hMq : ((max col.r (max col.g col.b) : ℕ) : ℚ) ≤ 255 := by exact_mod_cast hM
  have hmq : (0 : ℚ) ≤ ((min col.r (min col.g col.b) : ℕ) : ℚ) := by positivity
  linarith

/-- Whatever accent branch runs, the accent color's read-back lightness
stays at most `509/510` (strictly below full white). -/
lemma accent_color_l_le (colors : List ExtractedColor)
    (hv : ∀ ec ∈ colors, ec.color.valid) (t : ℚ) :
    ((accent_color (chromaticOf (colors.map (fun ec => ec.color.to_oklch))) t).to_oklch).l
      ≤ 509/510 := by
  unfold accent_color
  cases hfind : find_closest_by_hue (chromaticOf (colors.map (fun ec => ec.color.to_oklch))) t with
  | none =>
    dsimp only
    apply roundtrip_l_le_of_le
    show clamp01 (65/100) ≤ 99/100
    rw [clamp01_eq_of _ (by norm_num) (by norm_num)]
    norm_num
  | some best =>
    unfold find_closest_by_hue at hfind
    have hb := minByFirst_mem hfind
    rw [mem_chromaticOf] at hb
    obtain ⟨hmem, hchroma⟩ := hb
    rw [List.mem_map] at hmem
    obtain ⟨ec, hec, rfl⟩ := hmem
    have hl99 := valid_chromatic_l_le _ (hv ec hec) hchroma
    have hl0 := to_oklch_l_nonneg ec.color
    dsimp only
    split_ifs with hdist
    · apply roundtrip_l_le_of_le
      show clamp01 (ec.color.to_oklch).l ≤ 99/100
      rw [clamp01_eq_of _ hl0 (by linarith)]
      exact hl99
    · apply roundtrip_l_le_of_le
      show clamp01 (ec.color.to_oklch).l ≤ 99/100
      rw [clamp01_eq_of _ hl0 (by linarith)]
      exact hl99

/-- Increasing lightness by `BRIGHT_L_DELTA` strictly increases the
read-back lightness, provided the starting color is not already at the
reachable top of the lightness scale. -/
lemma adjust_lightness_strict (c : Color) (hle : c.to_oklch.l ≤ 509/510) :
    c.to_oklch.l < (c.adjust_lightness BRIGHT_L_DELTA).to_oklch.l := by
  have h0 := to_oklch_l_nonneg c
  unfold Color.adjust_lightness BRIGHT_L_DELTA
  dsimp only
  have hgt := roundtrip_l_gt
    (Oklch.new (clamp01 (c.to_oklch.l + 12/100)) c.to_oklch.chroma c.to_oklch.hue)
  have hlg : lGamut (Oklch.new (clamp01 (c.to_oklch.l + 12/100)) c.to_oklch.chroma c.to_oklch.hue)
      = clamp01 (c.to_oklch.l + 12/100) := by
    show clamp01 (clamp01 (c.to_oklch.l + 12/100)) = clamp01 (c.to_oklch.l + 12/100)
    exact clamp01_eq_of _ (clamp01_nonneg _) (clamp01_le_one _)
  rw [hlg] at hgt
  rcases le_or_lt (c.to_oklch.l + 12/100) 1 with h | h
  · have hcl : clamp01 (c.to_oklch.l + 12/100) = c.to_oklch.l + 12/100 :=
      clamp01_eq_of _ (by linarith) h
    rw [hcl] at hgt ⊢
    linarith
  · have hcl : clamp01 (c.to_oklch.l + 12/100) = 1 := clamp01_eq_one_of _ (le_of_lt h)
    rw [hcl] at hgt ⊢
    linarith

lemma dark_base_l_nonneg (colors : List ExtractedColor) :
    0 ≤ (dark_base (colors.map (fun ec => ec.color.to_oklch))).l := by
  unfold dark_base
  cases h : minByFirst (fun o => o.l) (colors.map fun ec => ec.color.to_oklch) with
  | none =>
    dsimp only [Option.getD]
    norm_num [Oklch.new]
  | some o =>
    dsimp only [Option.getD]
    have hmem := minByFirst_mem h
    rw [List.mem_map] at hmem
    obtain ⟨ec, _, rfl⟩ := hmem
    exact to_oklch_l_nonneg _

lemma accent_color_valid (ch : List Oklch) (t : ℚ) : (accent_color ch t).valid := by
  unfold accent_color
  cases find_closest_by_hue ch t with
  | none => exact from_oklch_valid _
  | some best =>
    dsimp only
    split_ifs <;> exact from_oklch_valid _

lemma adjust_lightness_valid (c : Color) (d : ℚ) : (c.adjust_lightness d).valid := by
  unfold Color.adjust_lightness
  exact from_oklch_valid _

lemma slotColor_valid (cands : List Oklch) (mode : ThemeMode) (n : ℕ) :
    (slotColor cands mode n).valid :=
  match n, mode with
  | 0, ThemeMode.Dark => from_oklch_valid _
  | 0, ThemeMode.Light => from_oklch_valid _
  | 1, _ => accent_color_valid _ _
  | 2, _ => accent_color_valid _ _
  | 3, _ => accent_color_valid _ _
  | 4, _ => accent_color_valid _ _
  | 5, _ => accent_color_valid _ _
  | 6, _ => accent_color_valid _ _
  | 7, ThemeMode.Dark => from_oklch_valid _
  | 7, ThemeMode.Light => from_oklch_valid _
  | 8, ThemeMode.Dark => from_oklch_valid _
  | 8, ThemeMode.Light => from_oklch_valid _
  | 9, _ => adjust_lightness_valid _ _
  | 10, _ => adjust_lightness_valid _ _
  | 11, _ => adjust_lightness_valid _ _
  | 12, _ => adjust_lightness_valid _ _
  | 13, _ => adjust_lightness_valid _ _
  | 14, _ => adjust_lightness_valid _ _
  | 15, ThemeMode.Dark => from_oklch_valid _
  | 15, ThemeMode.Light => from_oklch_valid _
  | _ + 16, _ => ⟨Nat.zero_le _, Nat.zero_le _, Nat.zero_le _⟩

/-! ### Claim theorems for the slot assigner -/

/-- C1: for every list of extracted colors (including the empty list)
and both theme modes, `assign_slots` totally produces an `AnsiPalette`
in which each of the 16 slots and all 6 derived colors is a fully
defined 8-bit sRGB color; no slot is left unset. -/
theorem C1_assign_slots_total (colors : List ExtractedColor) (mode : ThemeMode) :
    (∀ i : Fin 16, ((assign_slots colors mode).slots i).valid) ∧
    (assign_slots colors mode).background.valid ∧
    (assign_slots colors mode).foreground.valid ∧
    (assign_slots colors mode).cursor_color.valid ∧
    (assign_slots colors mode).cursor_text.valid ∧
    (assign_slots colors mode).selection_bg.valid ∧
    (assign_slots colors mode).selection_fg.valid := by
  refine ⟨fun i => slotColor_valid _ _ _, ?_, ?_, ?_, ?_, ?_, ?_⟩
  · exact slotColor_valid _ _ _
  · exact slotColor_valid _ _ _
  · exact slotColor_valid _ _ _
  · exact slotColor_valid _ _ _
  · exact from_oklch_valid _
  · exact slotColor_valid _ _ _

/-- C5: the derived special colors satisfy the claimed identities
unconditionally, and the selection background is slot 4 with lightness
nudged by `±0.1` toward the mode's opposite pole (clamped to `[0, 1]`),
chroma scaled to 60 percent with a floor of `0.01`, and hue unchanged. -/
theorem C5_special_colors (colors : List ExtractedColor) (mode : ThemeMode) :
    (assign_slots colors mode).background = (assign_slots colors mode).slots 0 ∧
    (assign_slots colors mode).foreground = (assign_slots colors mode).slots 15 ∧
    (assign_slots colors mode).cursor_color = (assign_slots colors mode).foreground ∧
    (assign_slots colors mode).cursor_text = (assign_slots colors mode).background ∧
    (assign_slots colors mode).selection_fg = (assign_slots colors mode).foreground ∧
    (assign_slots colors mode).selection_bg =
      Color.from_oklch (Oklch.new
        (match mode with
         | ThemeMode.Dark => min (((assign_slots colors mode).slots 4).to_oklch.l + 1/10) 1
         | ThemeMode.Light => max (((assign_slots colors mode).slots 4).to_oklch.l - 1/10) 0)
        (max (((assign_slots colors mode).slots 4).to_oklch.chroma * (6/10)) (1/100))
        (((assign_slots colors mode).slots 4).to_oklch.hue)) := by
  refine ⟨rfl, rfl, rfl, rfl, rfl, ?_⟩
  cases mode <;> rfl

/-- C10: the `weight` field has no influence on slot assignment — two
inputs of equal length with pairwise identical `color` fields yield
identical palettes for either mode. -/
theorem C10_weight_noninterference (colors₁ colors₂ : List ExtractedColor) (mode : ThemeMode)
    (h : colors₁.map (fun ec => ec.color) = colors₂.map (fun ec => ec.color)) :
    assign_slots colors₁ mode = assign_slots colors₂ mode := by
  have hocs := congrArg (List.map Color.to_oklch) h
  rw [List.map_map, List.map_map] at hocs
  unfold assign_slots
  rw [show (fun ec : ExtractedColor => ec.color.to_oklch)
        = (Color.to_oklch ∘ fun ec : ExtractedColor => ec.color) from rfl, hocs]

/-- Witness for C10 at a concrete input: same colors, different weights,
identical palettes. -/
theorem C10_weight_noninterference_witness :
    ([⟨Color.new 10 20 30, 1/2⟩] : List ExtractedColor).map (fun ec => ec.color)
        = ([⟨Color.new 10 20 30, 1/4⟩] : List ExtractedColor).map (fun ec => ec.color) ∧
    assign_slots [⟨Color.new 10 20 30, 1/2⟩] ThemeMode.Dark
        = assign_slots [⟨Color.new 10 20 30, 1/4⟩] ThemeMode.Dark :=
  ⟨rfl, C10_weight_noninterference _ _ ThemeMode.Dark rfl⟩

lemma from_oklch_l_le_clamp (X c h : ℚ) :
    (Color.from_oklch (Oklch.new X c h)).to_oklch.l ≤ clamp01 X + 1/510 :=
  roundtrip_l_le (Oklch.new X c h)

lemma from_oklch_l_gt_clamp (X c h : ℚ) :
    clamp01 X - 1/510 < (Color.from_oklch (Oklch.new X c h)).to_oklch.l :=
  roundtrip_l_gt (Oklch.new X c h)

lemma from_oklch_l_le_target (X c h target : ℚ) (hX : clamp01 X + 1/510 ≤ target) :
    (Color.from_oklch (Oklch.new X c h)).to_oklch.l ≤ target :=
  le_trans (from_oklch_l_le_clamp X c h) hX

lemma from_oklch_l_lt_target (X c h target : ℚ) (hX : clamp01 X + 1/510 < target) :
    (Color.from_oklch (Oklch.new X c h)).to_oklch.l < target :=
  lt_of_le_of_lt (from_oklch_l_le_clamp X c h) hX

lemma from_oklch_l_gt_target (X c h target : ℚ) (hX : target ≤ clamp01 X - 1/510) :
    target < (Color.from_oklch (Oklch.new X c h)).to_oklch.l :=
  lt_of_le_of_lt hX (from_oklch_l_gt_clamp X c h)

lemma from_oklch_l_abs_le (X c h target tol : ℚ) (hX : clamp01 X = target)
    (htol : 1/510 ≤ tol) :
    |(Color.from_oklch (Oklch.new X c h)).to_oklch.l - target| ≤ tol := by
  rw [abs_le]
  have h1 := from_oklch_l_le_clamp X c h
  have h2 := from_oklch_l_gt_clamp X c h
  rw [hX] at h1 h2
  constructor <;> linarith

lemma clamp01_ge_of {x y : ℚ} (hy1 : y ≤ 1) (h : y ≤ x) : y ≤ clamp01 x :=
  le_min hy1 (le_trans h (le_max_right _ _))

/-- C6: each bright accent slot `i + 8` (`i` in 1..6) equals the normal
accent slot `i` with Oklch lightness increased by `BRIGHT_L_DELTA` and
then gamut clamped, and its read-back lightness strictly exceeds that of
slot `i`. -/
theorem C6_bright_variants (colors : List ExtractedColor) (mode : ThemeMode)
    (hv : ∀ ec ∈ colors, ec.color.valid) (i : ℕ) (h1 : 1 ≤ i) (h2 : i ≤ 6) :
    (assign_slots colors mode).slots ⟨i + 8, by omega⟩
        = ((assign_slots colors mode).slots ⟨i, by omega⟩).adjust_lightness BRIGHT_L_DELTA ∧
    ((assign_slots colors mode).slots ⟨i, by omega⟩).to_oklch.l
        < ((assign_slots colors mode).slots ⟨i + 8, by omega⟩).to_oklch.l := by
  interval_cases i <;>
    exact ⟨rfl, adjust_lightness_strict _ (accent_color_l_le colors hv _)⟩

/-- Witness for C6 at a concrete input (empty candidate list, dark mode,
accent pair 1/9). -/
theorem C6_bright_variants_witness :
    (∀ ec ∈ ([] : List ExtractedColor), ec.color.valid) ∧ 1 ≤ 1 ∧ 1 ≤ 6 ∧
    ((assign_slots [] ThemeMode.Dark).slots ⟨1 + 8, by omega⟩
        = ((assign_slots [] ThemeMode.Dark).slots ⟨1, by omega⟩).adjust_lightness BRIGHT_L_DELTA ∧
      ((assign_slots [] ThemeMode.Dark).slots ⟨1, by omega⟩).to_oklch.l
        < ((assign_slots [] ThemeMode.Dark).slots ⟨1 + 8, by omega⟩).to_oklch.l) :=
  ⟨by simp, le_rfl, by norm_num,
    C6_bright_variants [] ThemeMode.Dark (by simp) 1 le_rfl (by norm_num)⟩

/-- C7: dark mode keeps slot 0 at lightness at most `0.16` and pins the
text slots near their targets (`15` near `0.93`, `7` near `0.85`, `8`
near `0.40`, each within `0.05`); light mode inverts — slot 0 above
`0.90`, slot 15 below `0.20`. -/
theorem C7_base_lightness (colors : List ExtractedColor) :
    ((assign_slots colors ThemeMode.Dark).slots 0).to_oklch.l ≤ 16/100 ∧
    |((assign_slots colors ThemeMode.Dark).slots 15).to_oklch.l - 93/100| ≤ 5/100 ∧
    |((assign_slots colors ThemeMode.Dark).slots 7).to_oklch.l - 85/100| ≤ 5/100 ∧
    |((assign_slots colors ThemeMode.Dark).slots 8).to_oklch.l - 40/100| ≤ 5/100 ∧
    90/100 < ((assign_slots colors ThemeMode.Light).slots 0).to_oklch.l ∧
    ((assign_slots colors ThemeMode.Light).slots 15).to_oklch.l < 20/100 := by
  have hdb := dark_base_l_nonneg colors
  refine ⟨?_, ?_, ?_, ?_, ?_, ?_⟩
  · apply from_oklch_l_le_target
    rw [clamp01_eq_of _ (le_min hdb (by norm_num))
      (le_trans (min_le_right _ _) (by norm_num))]
    have := min_le_right (dark_base (colors.map fun ec => ec.color.to_oklch)).l (15/100 : ℚ)
    linarith
  · apply from_oklch_l_abs_le
    · exact clamp01_eq_of _ (by norm_num) (by norm_num)
    · norm_num
  · apply from_oklch_l_abs_le
    · exact clamp01_eq_of _ (by norm_num) (by norm_num)
    · norm_num
  · apply from_oklch_l_abs_le
    · exact clamp01_eq_of _ (by norm_num) (by norm_num)
    · norm_num
  · apply from_oklch_l_gt_target
    have hge : (93/100 : ℚ) ≤
        clamp01 (max (light_base (colors.map fun ec => ec.color.to_oklch)).l (93/100)) :=
      clamp01_ge_of (by norm_num) (le_max_right _ _)
    linarith
  · apply from_oklch_l_lt_target
    rw [clamp01_eq_of _ (le_min hdb (by norm_num))
      (le_trans (min_le_right _ _) (by norm_num))]
    have := min_le_right (dark_base (colors.map fun ec => ec.color.to_oklch)).l (15/100 : ℚ)
    linarith

/-- The three-way accent rule, characterized against the argmin scan:
fully synthetic fallback on an empty chromatic list, and otherwise a
hue-distance-minimizing candidate, taken unmodified within
`MAX_HUE_DISTANCE` and hue-rotated to the target beyond it. -/
lemma accent_color_spec (ch : List Oklch) (t : ℚ) :
    (ch = [] → accent_color ch t = Color.from_oklch (Oklch.new (65/100) (15/100) t)) ∧
    (ch ≠ [] → ∃ best ∈ ch,
      (∀ c ∈ ch, hue_distance best.hue t ≤ hue_distance c.hue t) ∧
      ((hue_distance best.hue t ≤ MAX_HUE_DISTANCE ∧
          accent_color ch t = Color.from_oklch best) ∨
        (MAX_HUE_DISTANCE < hue_distance best.hue t ∧
          accent_color ch t = Color.from_oklch (Oklch.new best.l best.chroma t)))) := by
  unfold accent_color find_closest_by_hue
  cases hmin : minByFirst (fun c => hue_distance c.hue t) ch with
  | none =>
    have hch : ch = [] := minByFirst_eq_none.mp hmin
    subst hch
    exact ⟨fun _ => rfl, fun hne => absurd rfl hne⟩
  | some best =>
    dsimp only
    have hmem := minByFirst_mem hmin
    have hle := minByFirst_le hmin
    constructor
    · intro hch
      subst hch
      simp at hmem
    · intro _
      refine ⟨best, hmem, hle, ?_⟩
      split_ifs with hd
      · exact Or.inl ⟨hd, rfl⟩
      · exact Or.inr ⟨lt_of_not_le hd, rfl⟩

/-- C4: for every input list and both modes, each accent slot follows
the chromatic-filter/argmin/synthesis rule at its target hue: with no
chromatic candidate every accent slot is synthesized from lightness
`0.65`, chroma `0.15` and the target hue; otherwise the candidate
minimizing circular hue distance to the target is used unmodified when
that distance is at most `MAX_HUE_DISTANCE`, and with its hue forced to
the target beyond it. -/
theorem C4_accent_policy (colors : List ExtractedColor) (mode : ThemeMode)
    (i : ℕ) (t : ℚ) (hmem : (i, t) ∈ TARGET_HUES) (hi : i < 16) :
    (chromaticOf (colors.map (fun ec => ec.color.to_oklch)) = [] →
        (assign_slots colors mode).slots ⟨i, hi⟩
          = Color.from_oklch (Oklch.new (65/100) (15/100) t)) ∧
    (chromaticOf (colors.map (fun ec => ec.color.to_oklch)) ≠ [] →
        ∃ best ∈ chromaticOf (colors.map (fun ec => ec.color.to_oklch)),
          (∀ c ∈ chromaticOf (colors.map (fun ec => ec.color.to_oklch)),
            hue_distance best.hue t ≤ hue_distance c.hue t) ∧
          ((hue_distance best.hue t ≤ MAX_HUE_DISTANCE ∧
              (assign_slots colors mode).slots ⟨i, hi⟩ = Color.from_oklch best) ∨
            (MAX_HUE_DISTANCE < hue_distance best.hue t ∧
              (assign_slots colors mode).slots ⟨i, hi⟩
                = Color.from_oklch (Oklch.new best.l best.chroma t)))) := by
  simp only [TARGET_HUES, List.mem_cons, List.not_mem_nil, or_false, Prod.mk.injEq] at hmem
  rcases hmem with ⟨rfl, rfl⟩ | ⟨rfl, rfl⟩ | ⟨rfl, rfl⟩ | ⟨rfl, rfl⟩ | ⟨rfl, rfl⟩ | ⟨rfl, rfl⟩ <;>
    exact accent_color_spec _ _

/-- Witness for C4 at a concrete input (empty input, dark mode, the red
accent pair slot 1 / hue 25): the synthetic-fallback branch fires. -/
theorem C4_accent_policy_witness :
    ((1 : ℕ), (25 : ℚ)) ∈ TARGET_HUES ∧ (1 < 16) ∧
    ((chromaticOf (([] : List ExtractedColor).map (fun ec => ec.color.to_oklch)) = [] →
        (assign_slots [] ThemeMode.Dark).slots ⟨1, by norm_num⟩
          = Color.from_oklch (Oklch.new (65/100) (15/100) 25)) ∧
     (chromaticOf (([] : List ExtractedColor).map (fun ec => ec.color.to_oklch)) ≠ [] →
        ∃ best ∈ chromaticOf (([] : List ExtractedColor).map (fun ec => ec.color.to_oklch)),
          (∀ c ∈ chromaticOf (([] : List ExtractedColor).map (fun ec => ec.color.to_oklch)),
            hue_distance best.hue 25 ≤ hue_distance c.hue 25) ∧
          ((hue_distance best.hue 25 ≤ MAX_HUE_DISTANCE ∧
              (assign_slots [] ThemeMode.Dark).slots ⟨1, by norm_num⟩ = Color.from_oklch best) ∨
            (MAX_HUE_DISTANCE < hue_distance best.hue 25 ∧
              (assign_slots [] ThemeMode.Dark).slots ⟨1, by norm_num⟩
                = Color.from_oklch (Oklch.new best.l best.chroma 25))))) :=
  ⟨by simp [TARGET_HUES], by norm_num,
    C4_accent_policy [] ThemeMode.Dark 1 25 (by simp [TARGET_HUES]) (by norm_num)⟩

/-! ### Claim theorems for the loading boundary -/

/-- The two failure messages are different strings for every path. -/
lemma notFound_ne_unsupported (path : String) : notFoundMsg path ≠ unsupportedMsg path := by
  intro h
  have hd := congrArg String.data h
  simp only [notFoundMsg, unsupportedMsg, String.data_append] at hd
  simp at hd

/-- A filesystem on which every path is absent. -/
def fsAllMissing : String → FsEntry := fun _ => FsEntry.missing

/-- A filesystem on which every path holds an undecodable file. -/
def fsAllCorrupt : String → FsEntry := fun _ => FsEntry.notImage

/-- C3 counterexample: at the concrete path `"wall.png"`, the
missing-path failure and the corrupt-file failure carry the same error
kind — the error type produced by `load_and_prepare` has a single
contextual-message form, so the two failures are not distinguishable by
error kind; only their message text differs. -/
theorem C3_kind_counterexample :
    load_and_prepare fsAllMissing "wall.png"
        = Except.error (AnyhowError.withContext (notFoundMsg "wall.png")) ∧
    load_and_prepare fsAllCorrupt "wall.png"
        = Except.error (AnyhowError.withContext (unsupportedMsg "wall.png")) ∧
    AnyhowError.kindIndex (AnyhowError.withContext (notFoundMsg "wall.png"))
        = AnyhowError.kindIndex (AnyhowError.withContext (unsupportedMsg "wall.png")) ∧
    notFoundMsg "wall.png" ≠ unsupportedMsg "wall.png" :=
  ⟨rfl, rfl, rfl, notFound_ne_unsupported _⟩

/-- C3 amended: `load_and_prepare` fails with the `file not found`
message exactly when the path does not exist and with the
`unsupported or corrupt image` message for any other decode failure; the
two messages always differ, but every error value carries the same kind
tag, so the failures are distinguishable only by message text. -/
theorem C3_amended_failure_messages (fs : String → FsEntry) (path : String) :
    (fs path = FsEntry.missing ↔
        load_and_prepare fs path = Except.error (AnyhowError.withContext (notFoundMsg path))) ∧
    (fs path = FsEntry.notImage ↔
        load_and_prepare fs path = Except.error (AnyhowError.withContext (unsupportedMsg path))) ∧
    notFoundMsg path ≠ unsupportedMsg path ∧
    (∀ e₁ e₂ : AnyhowError, e₁.kindIndex = e₂.kindIndex) := by
  have hne := notFound_ne_unsupported path
  refine ⟨?_, ?_, hne, fun e₁ e₂ => by cases e₁; cases e₂; rfl⟩ <;>
    cases hfs : fs path <;>
      simp [load_and_prepare, hfs, hne, Ne.symm hne]

lemma fitRatio_pos (w h : ℕ) (hw : 0 < w) (hh : 0 < h) : 0 < fitRatio w h := by
  unfold fitRatio
  have hwq : (0:ℚ) < w := by exact_mod_cast hw
  have hhq : (0:ℚ) < h := by exact_mod_cast hh
  exact lt_min (by positivity) (by positivity)

lemma rnd_le_of_le (x : ℚ) (b : ℕ) (hx : x ≤ b) : rnd x ≤ b := by
  unfold rnd
  have h1 : ⌊x + 1/2⌋ ≤ (b : ℤ) := by
    rw [Int.floor_le_iff]
    push_cast
    linarith
  omega

lemma fitWidth_le (w h : ℕ) (hw : 0 < w) (_hh : 0 < h) : fitWidth w h ≤ MAX_DIM := by
  unfold fitWidth MAX_DIM
  have hwq : (0:ℚ) < w := by exact_mod_cast hw
  have hr : fitRatio w h ≤ (256 : ℚ) / w := min_le_left _ _
  have hle : (w : ℚ) * fitRatio w h ≤ 256 := by
    have := mul_le_mul_of_nonneg_left hr (le_of_lt hwq)
    rwa [mul_div_cancel₀ _ (ne_of_gt hwq)] at this
  have := rnd_le_of_le ((w : ℚ) * fitRatio w h) 256 (by exact_mod_cast hle)
  omega

lemma fitHeight_le (w h : ℕ) (_hw : 0 < w) (hh : 0 < h) : fitHeight w h ≤ MAX_DIM := by
  unfold fitHeight MAX_DIM
  have hhq : (0:ℚ) < h := by exact_mod_cast hh
  have hr : fitRatio w h ≤ (256 : ℚ) / h := min_le_right _ _
  have hle : (h : ℚ) * fitRatio w h ≤ 256 := by
    have := mul_le_mul_of_nonneg_left hr (le_of_lt hhq)
    rwa [mul_div_cancel₀ _ (ne_of_gt hhq)] at this
  have := rnd_le_of_le ((h : ℚ) * fitRatio w h) 256 (by exact_mod_cast hle)
  omega

/-- Rounding then flooring at 1 moves a positive quantity by at most 1. -/
lemma max_rnd_dev (x : ℚ) (hx : 0 < x) : |((max 1 (rnd x) : ℕ) : ℚ) - x| ≤ 1 := by
  unfold rnd
  have h0 : (0:ℤ) ≤ ⌊x + 1/2⌋ := by
    rw [Int.le_floor]
    push_cast
    linarith
  have hfl : (⌊x + 1/2⌋ : ℚ) ≤ x + 1/2 := Int.floor_le _
  have hfg : x + 1/2 - 1 < (⌊x + 1/2⌋ : ℚ) := Int.sub_one_lt_floor _
  have hcast : ((⌊x + 1/2⌋.toNat : ℕ) : ℚ) = ((⌊x + 1/2⌋ : ℤ) : ℚ) := by
    exact_mod_cast congrArg (fun z : ℤ => (z : ℚ)) (Int.toNat_of_nonneg h0)
  rcases le_or_lt 1 ⌊x + 1/2⌋.toNat with h | h
  · rw [max_eq_right h, hcast, abs_le]
    constructor <;> linarith
  · have ht : ⌊x + 1/2⌋ = 0 := by omega
    have hm : max 1 ⌊x + 1/2⌋.toNat = 1 := by omega
    rw [hm]
    rw [ht] at hfg
    push_cast at hfg
    rw [abs_le]
    push_cast
    constructor <;> linarith

/-- Aspect-ratio preservation up to rounding: the cross products of the
fitted dimensions differ by at most `w + h`. -/
lemma fit_aspect (w h : ℕ) (hw : 0 < w) (hh : 0 < h) :
    |(fitWidth w h : ℚ) * h - (fitHeight w h : ℚ) * w| ≤ w + h := by
  have hρ := fitRatio_pos w h hw hh
  have hwq : (0:ℚ) < w := by exact_mod_cast hw
  have hhq : (0:ℚ) < h := by exact_mod_cast hh
  have hdw := max_rnd_dev ((w : ℚ) * fitRatio w h) (by positivity)
  have hdh := max_rnd_dev ((h : ℚ) * fitRatio w h) (by positivity)
  unfold fitWidth fitHeight
  rw [abs_le] at hdw hdh ⊢
  obtain ⟨hw1, hw2⟩ := hdw
  obtain ⟨hh1, hh2⟩ := hdh
  have p1 := mul_le_mul_of_nonneg_right hw2 (le_of_lt hhq)
  have p2 := mul_le_mul_of_nonneg_right hw1 (le_of_lt hhq)
  have p3 := mul_le_mul_of_nonneg_right hh2 (le_of_lt hwq)
  have p4 := mul_le_mul_of_nonneg_right hh1 (le_of_lt hwq)
  have hring : (w : ℚ) * fitRatio w h * h = (h : ℚ) * fitRatio w h * w := by ring
  constructor <;> nlinarith

/-- C8: a successfully decoded image is downsampled exactly when either
dimension exceeds `MAX_DIM`, staying within the bound and preserving
aspect ratio up to rounding; an in-bounds image is left unresized; every
resulting pixel is converted to Lab and the full pixel sequence is
returned (its length is the resulting width times height). -/
theorem C8_prepare_pipeline (fs : String → FsEntry) (path : String) (img : RgbImage)
    (himg : fs path = FsEntry.image img) (hw : 0 < img.width) (hh : 0 < img.height) :
    (¬(MAX_DIM < img.width ∨ MAX_DIM < img.height) →
        load_and_prepare fs path = Except.ok ((pixelsOf img).map rgbToLab) ∧
        ((pixelsOf img).map rgbToLab).length = img.width * img.height) ∧
    ((MAX_DIM < img.width ∨ MAX_DIM < img.height) →
        load_and_prepare fs path = Except.ok ((pixelsOf (resizeFit img)).map rgbToLab) ∧
        ((pixelsOf (resizeFit img)).map rgbToLab).length
          = fitWidth img.width img.height * fitHeight img.width img.height ∧
        fitWidth img.width img.height ≤ MAX_DIM ∧
        fitHeight img.width img.height ≤ MAX_DIM ∧
        |(fitWidth img.width img.height : ℚ) * img.height
            - (fitHeight img.width img.height : ℚ) * img.width|
          ≤ img.width + img.height) := by
  constructor
  · intro hno
    unfold load_and_prepare
    rw [himg]
    dsimp only
    rw [if_neg hno]
    exact ⟨rfl, by simp [pixelsOf]⟩
  · intro hyes
    unfold load_and_prepare
    rw [himg]
    dsimp only
    rw [if_pos hyes]
    refine ⟨rfl, ?_, fitWidth_le _ _ hw hh, fitHeight_le _ _ hw hh, fit_aspect _ _ hw hh⟩
    simp [pixelsOf, resizeFit]

/-- A concrete 2-by-3 image for the C8 witness. -/
def imgEx : RgbImage := ⟨2, 3, fun _ _ => Color.new 7 8 9⟩

/-- A filesystem holding `imgEx` at every path. -/
def fsImgEx : String → FsEntry := fun _ => FsEntry.image imgEx

/-- Witness for C8 at a concrete input: a 2-by-3 image is left
unresized and yields all 6 pixels converted to Lab. -/
theorem C8_prepare_pipeline_witness :
    fsImgEx "w.png" = FsEntry.image imgEx ∧ 0 < imgEx.width ∧ 0 < imgEx.height ∧
    (¬(MAX_DIM < imgEx.width ∨ MAX_DIM < imgEx.height) →
        load_and_prepare fsImgEx "w.png" = Except.ok ((pixelsOf imgEx).map rgbToLab) ∧
        ((pixelsOf imgEx).map rgbToLab).length = imgEx.width * imgEx.height) :=
  ⟨rfl, by norm_num [imgEx], by norm_num [imgEx],
    (C8_prepare_pipeline fsImgEx "w.png" imgEx rfl (by norm_num [imgEx])
      (by norm_num [imgEx])).1⟩

/-! ### Claim theorems for the extraction stage -/

/-- C2 (code bug): `extract_colors` yields no value even on the empty
pixel list with `k = 1` — its body is an unconditional todo panic — so
the claimed no-panic, empty-returns-empty contract fails on the code. -/
theorem C2_extract_colors_panics : extract_colors [] 1 = none := rfl

/-- C9 (code bug): `extract_colors` yields no value on any input — the
todo panic fires before any centroid initialization exists — so no run
returns the colors and weights whose determinism the claim asserts. -/
theorem C9_extract_colors_no_result (pixels : List Lab) (k : ℕ) :
    extract_colors pixels k = none := rfl


end Themer
